import Mathlib

/-!
Verification of the go-uploader upload request handler (the resilient
revision of `main.go`, together with `storage/local_storage.go`).

The Go code is shallowly embedded as follows.

* Strings are Lean `String`s; rune-level work happens on `String.data`
  (`List Char`).  All file names in the repository are ASCII, so a Go rune
  corresponds to one `Char`.
* `sanitizeFilename` is embedded via `goStringsMap`, a faithful model of
  Go's `strings.Map` restricted to mapping functions that either keep a
  rune or drop it (return a negative rune) — the only shape used by the
  source.
* `path/filepath` (`Join`, `Clean`) is modelled for Unix path semantics:
  `splitSlash` splits on `'/'`, `cleanStack` is the lexical processing of
  `.`/`..`/empty components that `filepath.Clean` performs, and
  `filepathClean` / `filepathJoin` assemble the cleaned string exactly as
  the Go implementation does (`Join(a, b) = Clean(a + "/" + b)` for
  non-empty `a`).
* `uploadHandler` from `main.go` is embedded as a function from an
  `UploadRequest` to an HTTP response paired with a trace of the
  observable collaborator calls (the single Turnstile verification, each
  `NextPart` body read, each `storage.SaveFile` invocation).  Inputs that
  the real handler obtains from its environment are fields of
  `UploadRequest`:
  - `ctParse` is the outcome of `mime.ParseMediaType` on the
    `Content-Type` header (`none` models a parse error);
  - `captcha` is the outcome of `turnstile.Verify` (`none` models a
    transport error, `some b` a reply with `Success = b`);
  - `subfolder` is the session identifier
    `time.Now().Format("2006-01-02_15-04-05.000")`, fixed once per request;
  - `events` is the behaviour of the multipart reader and of the storage
    backend, one `LoopEvent` per iteration of the consumption loop: the
    context-deadline check firing, `NextPart` returning `io.EOF`,
    `NextPart` returning some other error, or `NextPart` yielding a part
    (with its declared file name, an abstract handle for its byte stream
    and the backend's response to saving it).  An exhausted event list is
    read as the end of the stream.
* `http.Error(w, msg, code)` writes `msg` followed by a newline; the
  success paths write their bodies with `w.Write` and no newline.  The
  embedding reproduces the exact bodies.
-/

/-! ## Go string helpers -/

/-- Character-list prefix test (Go `strings.HasPrefix` on rune lists). -/
def isPrefixOfCh : List Char → List Char → Bool
  | [], _ => true
  | _ :: _, [] => false
  | a :: as, b :: bs => a = b && isPrefixOfCh as bs

/-- Go `strings.HasPrefix s pre`. -/
def goHasPrefix (s pre : String) : Bool :=
  isPrefixOfCh pre.data s.data

/-- Substring search on character lists (Go `strings.Contains`). -/
def containsSub (needle : List Char) : List Char → Bool
  | [] => isPrefixOfCh needle []
  | c :: rest => isPrefixOfCh needle (c :: rest) || containsSub needle rest

/-- Go `strings.Contains s sub`. -/
def goContains (s sub : String) : Bool :=
  containsSub sub.data s.data

/-! ## sanitizeFilename (main.go) -/

/-- Go `strings.Map` for mapping functions that keep or drop each rune
(the source's function returns the rune unchanged or `-1`). -/
def goStringsMap (f : Char → Option Char) : List Char → List Char
  | [] => []
  | c :: cs =>
    match f c with
    | none => goStringsMap f cs
    | some c2 => c2 :: goStringsMap f cs

/-- The mapping function inside `sanitizeFilename`: drop `/`, `\` and `:`,
keep every other rune. -/
def sanitizeRune (c : Char) : Option Char :=
  if c = '/' ∨ c = '\\' ∨ c = ':' then none else some c

/-- `sanitizeFilename` from `main.go`. -/
def sanitizeFilename (name : String) : String :=
  ⟨goStringsMap sanitizeRune name.data⟩

/-! ## path/filepath model (Unix) -/

/-- Split a character list on `'/'` (components may be empty). -/
def splitSlash : List Char → List (List Char)
  | [] => [[]]
  | c :: cs =>
    if c = '/' then [] :: splitSlash cs
    else
      match splitSlash cs with
      | [] => [[c]]
      | p :: ps => (c :: p) :: ps

/-- Join components with `'/'`. -/
def intercalateSlash : List (List Char) → List Char
  | [] => []
  | [p] => p
  | p :: ps => p ++ '/' :: intercalateSlash ps

/-- Does the path start with `'/'`? -/
def isRootedL : List Char → Bool
  | [] => false
  | c :: _ => c = '/'

/-- The component `".."`. -/
def dotdot : List Char := ['.', '.']

/-- Lexical processing of `filepath.Clean`: walk the components, skipping
empty and `"."` components, resolving `".."` against the stack (`acc`,
kept in reverse order).  For a rooted path a `".."` at the root is
dropped; for a relative path it is kept. -/
def cleanStack (rooted : Bool) : List (List Char) → List (List Char) → List (List Char)
  | acc, [] => acc
  | acc, p :: ps =>
    if p = [] ∨ p = ['.'] then cleanStack rooted acc ps
    else if p = dotdot then
      match acc with
      | [] => if rooted then cleanStack rooted [] ps else cleanStack rooted [dotdot] ps
      | q :: qs =>
        if q = dotdot then cleanStack rooted (dotdot :: q :: qs) ps
        else cleanStack rooted qs ps
    else cleanStack rooted (p :: acc) ps

/-- Render a cleaned component list back into a path string, as
`filepath.Clean` does (empty result becomes `"."`, or `"/"` if rooted). -/
def renderPath (rooted : Bool) (parts : List (List Char)) : List Char :=
  match parts with
  | [] => if rooted then ['/'] else ['.']
  | _ :: _ => (if rooted then ['/'] else []) ++ intercalateSlash parts

/-- `filepath.Clean` (Unix semantics). -/
def filepathClean (s : String) : String :=
  let rooted := isRootedL s.data
  ⟨renderPath rooted (cleanStack rooted [] (splitSlash s.data)).reverse⟩

/-- `filepath.Join(a, b)` (Unix semantics): skip leading empty elements,
join the rest with `'/'` and clean the result; all-empty input gives `""`. -/
def filepathJoin (a b : String) : String :=
  if a.data = [] then
    if b.data = [] then "" else filepathClean b
  else filepathClean ⟨a.data ++ '/' :: b.data⟩

/-- The resolved component stack of a path (in reverse order): the lexical
meaning that `filepath.Clean` preserves. -/
def resolveStack (s : String) : List (List Char) :=
  cleanStack (isRootedL s.data) [] (splitSlash s.data)

/-- The resolved components of a path, in path order. -/
def resolveParts (s : String) : List (List Char) :=
  (resolveStack s).reverse

/-- `p` lexically denotes a path inside `base`: same rootedness, and the
resolved components of `base` are a prefix of those of `p`. -/
def pathWithin (base p : String) : Prop :=
  isRootedL p.data = isRootedL base.data ∧ resolveParts base <+: resolveParts p

/-! ## uploadHandler (main.go, resilient revision) -/

/-- A Go `error` value, as the handler observes it: whether
`errors.Is(err, io.ErrUnexpectedEOF)` holds, and its `Error()` text. -/
structure GoError where
  isUnexpectedEOF : Bool
  msg : String
deriving Repr, DecidableEq

/-- The handler's dropped-connection test:
`errors.Is(err, io.ErrUnexpectedEOF) || strings.Contains(err.Error(), "unexpected EOF")`. -/
def droppedConn (e : GoError) : Bool :=
  e.isUnexpectedEOF || goContains e.msg "unexpected EOF"

/-- The per-session bookkeeping of `uploadHandler`: the `saved` and
`failed` counters and the most recent error (`lastError`). -/
structure Sess where
  saved : Nat
  failed : Nat
  lastError : Option GoError
deriving Repr, DecidableEq

/-- One iteration's worth of environment behaviour for the multipart
consumption loop. -/
inductive LoopEvent where
  /-- The deadline context's `Done` channel is closed at the
  top-of-loop `select` check. -/
  | ctxDone : LoopEvent
  /-- `mr.NextPart()` returns `io.EOF`. -/
  | eofPart : LoopEvent
  /-- `mr.NextPart()` returns a non-`io.EOF` error. -/
  | readErr (e : GoError) : LoopEvent
  /-- `mr.NextPart()` yields a part with the given declared file name and
  byte stream (abstract handle); `saveErr` is the storage backend's answer
  should the handler save this part. -/
  | filePart (filename : String) (stream : Nat) (saveErr : Option GoError) : LoopEvent
deriving Repr, DecidableEq

/-- An observable collaborator call made by the handler. -/
inductive Event where
  /-- The single `ts.Verify(token, r.RemoteAddr)` call. -/
  | captchaCall : Event
  /-- One `mr.NextPart()` call (a read of the request body). -/
  | nextPartCall : Event
  /-- One `storage.SaveFile(name, part)` call, with the name passed and
  the part's stream handle. -/
  | saveCall (name : String) (stream : Nat) : Event
deriving Repr, DecidableEq

/-- An HTTP response: status code and exact body bytes. -/
structure HttpResponse where
  status : Nat
  body : String
deriving Repr, DecidableEq

/-- Go `http.Error(w, msg, code)`: writes `msg` plus a newline. -/
def httpError (code : Nat) (msg : String) : HttpResponse :=
  ⟨code, msg ++ "\n"⟩

/-- How the multipart loop ended: by the deadline firing at the
top-of-loop check, or by falling through to the outcome classification
(`break` on `io.EOF`, `break` on an unrecoverable error, or stream
exhaustion). -/
inductive LoopExit where
  | timedOut (s : Sess) : LoopExit
  | finished (s : Sess) : LoopExit
deriving Repr, DecidableEq

/-- The session bookkeeping carried by a loop exit. -/
def LoopExit.sess : LoopExit → Sess
  | .timedOut s => s
  | .finished s => s

/-- The multipart consumption loop of `uploadHandler`, returning how the
loop ended together with the trace of collaborator calls it made. -/
def runLoop (subfolder : String) (s : Sess) : List LoopEvent → LoopExit × List Event
  | [] => (LoopExit.finished s, [])
  | LoopEvent.ctxDone :: _ => (LoopExit.timedOut s, [])
  | LoopEvent.eofPart :: _ => (LoopExit.finished s, [Event.nextPartCall])
  | LoopEvent.readErr e :: rest =>
    if droppedConn e then
      let k := runLoop subfolder { saved := s.saved, failed := s.failed + 1, lastError := some e } rest
      (k.1, Event.nextPartCall :: k.2)
    else
      (LoopExit.finished { saved := s.saved, failed := s.failed, lastError := some e },
        [Event.nextPartCall])
  | LoopEvent.filePart fn str serr :: rest =>
    if fn = "" then
      let k := runLoop subfolder s rest
      (k.1, Event.nextPartCall :: k.2)
    else
      let name := filepathJoin subfolder (sanitizeFilename fn)
      match serr with
      | some e =>
        let k := runLoop subfolder { saved := s.saved, failed := s.failed + 1, lastError := some e } rest
        (k.1, Event.nextPartCall :: Event.saveCall name str :: k.2)
      | none =>
        let k := runLoop subfolder { saved := s.saved + 1, failed := s.failed, lastError := s.lastError } rest
        (k.1, Event.nextPartCall :: Event.saveCall name str :: k.2)

/-- The response written after the loop: the in-loop timeout branch for a
`timedOut` exit, and the post-loop `saved`/`failed`/`lastError`
classification for a `finished` exit — exactly the bodies of `main.go`. -/
def classify : LoopExit → HttpResponse
  | .timedOut s =>
    if s.saved > 0 then
      ⟨206, "Upload partially completed: " ++ toString s.saved ++
        " file(s) uploaded, " ++ toString s.failed ++ " failed due to timeout"⟩
    else httpError 408 "Upload timed out"
  | .finished s =>
    if s.saved = 0 then
      match s.lastError with
      | some e =>
        if droppedConn e then
          httpError 400
            "Upload failed due to connection issues. Please check your internet connection and try again."
        else httpError 400 ("Upload failed: " ++ e.msg)
      | none => httpError 400 "No files uploaded"
    else if s.failed > 0 then
      ⟨206, "Partially successful: " ++ toString s.saved ++
        " file(s) uploaded, " ++ toString s.failed ++ " failed"⟩
    else ⟨201, "Uploaded " ++ toString s.saved ++ " file(s)"⟩

/-- The handler's CAPTCHA rejection test `err != nil || !resp.Success`. -/
def captchaFailed : Option Bool → Bool
  | none => true
  | some ok => !ok

/-- One inbound upload request together with the environment behaviour
the handler observes while serving it. -/
structure UploadRequest where
  method : String
  ctParse : Option (String × List (String × String))
  captcha : Option Bool
  subfolder : String
  events : List LoopEvent
deriving Repr, DecidableEq

/-- `uploadHandler` from `main.go` (resilient revision): returns the HTTP
response and the trace of collaborator calls. -/
def uploadHandler (r : UploadRequest) : HttpResponse × List Event :=
  if r.method ≠ "POST" then (httpError 405 "Only POST allowed", [])
  else
    match r.ctParse with
    | none => (httpError 400 "Invalid Content-Type", [])
    | some (mediaType, _params) =>
      if goHasPrefix mediaType "multipart/" then
        if captchaFailed r.captcha then
          (httpError 403 "CAPTCHA verification failed", [Event.captchaCall])
        else
          let k := runLoop r.subfolder { saved := 0, failed := 0, lastError := none } r.events
          (classify k.1, Event.captchaCall :: k.2)
      else (httpError 400 "Invalid Content-Type", [])

/-! ## Counters over event lists -/

/-- Number of parts with a non-empty declared file name in an event list. -/
def observedNonEmptyParts (evs : List LoopEvent) : Nat :=
  evs.countP fun ev =>
    match ev with
    | LoopEvent.filePart fn _ _ => fn ≠ ""
    | _ => false

/-- Number of recoverable (dropped-connection) `NextPart` errors in an
event list. -/
def droppedReadErrs (evs : List LoopEvent) : Nat :=
  evs.countP fun ev =>
    match ev with
    | LoopEvent.readErr e => droppedConn e
    | _ => false

/-- Number of CAPTCHA verification calls in a trace. -/
def countCaptcha (t : List Event) : Nat :=
  t.countP fun ev =>
    match ev with
    | Event.captchaCall => true
    | _ => false

/-! ## Lemmas about the sanitizer -/

lemma goStringsMap_sanitizeRune (l : List Char) :
    goStringsMap sanitizeRune l
      = l.filter (fun c => !(c == '/' || c == '\\' || c == ':')) := by
  induction l with
  | nil => rfl
  | cons c cs ih =>
    by_cases h : c = '/' ∨ c = '\\' ∨ c = ':'
    · have hf : (!(c == '/' || c == '\\' || c == ':')) = false := by
        rcases h with h | h | h <;> simp [h]
      simp [goStringsMap, sanitizeRune, h, List.filter, hf, ih]
    · push_neg at h
      have hf : (!(c == '/' || c == '\\' || c == ':')) = true := by
        simp [h.1, h.2.1, h.2.2]
      simp [goStringsMap, sanitizeRune, h.1, h.2.1, h.2.2, List.filter, hf, ih]

lemma sanitize_no_slash (fn : String) : '/' ∉ (sanitizeFilename fn).data := by
  intro hmem
  simp only [sanitizeFilename, goStringsMap_sanitizeRune] at hmem
  have := List.of_mem_filter hmem
  simp at this

/-- C2: `sanitizeFilename` returns its input with exactly the characters
`/`, `\` and `:` removed, preserving all other characters and their order
(no other normalization — in particular `..` sequences survive), and on
`"../../../etc/passwd"` it returns `"......etcpasswd"`.  It is a pure
function of its argument by construction. -/
theorem sanitizeFilename_spec :
    (∀ s : String, (sanitizeFilename s).data
        = s.data.filter (fun c => !(c == '/' || c == '\\' || c == ':')))
  ∧ sanitizeFilename "../../../etc/passwd" = "......etcpasswd" := by
  constructor
  · intro s
    simp [sanitizeFilename, goStringsMap_sanitizeRune]
  · decide

/-! ## Loop counter bookkeeping (C3) -/

/-- C3 as stated is false: a recoverable unexpected-EOF error from
`NextPart` increments `failed` although no part was observed.  After the
loop consumes the single event below, `saved + failed = 1` while zero
parts with non-empty filenames have been observed. -/
theorem loop_counters_exceed_parts_cex :
    ¬ ((runLoop "2025-06-01_10-00-00.000" { saved := 0, failed := 0, lastError := none }
          [LoopEvent.readErr ⟨true, "unexpected EOF"⟩]).1.sess.saved
        + (runLoop "2025-06-01_10-00-00.000" { saved := 0, failed := 0, lastError := none }
          [LoopEvent.readErr ⟨true, "unexpected EOF"⟩]).1.sess.failed
        ≤ observedNonEmptyParts [LoopEvent.readErr ⟨true, "unexpected EOF"⟩]) := by
  decide

lemma observed_cons_ctxDone (rest : List LoopEvent) :
    observedNonEmptyParts (LoopEvent.ctxDone :: rest) = observedNonEmptyParts rest := by
  simp [observedNonEmptyParts, List.countP_cons]

lemma observed_cons_eof (rest : List LoopEvent) :
    observedNonEmptyParts (LoopEvent.eofPart :: rest) = observedNonEmptyParts rest := by
  simp [observedNonEmptyParts, List.countP_cons]

lemma observed_cons_readErr (e : GoError) (rest : List LoopEvent) :
    observedNonEmptyParts (LoopEvent.readErr e :: rest) = observedNonEmptyParts rest := by
  simp [observedNonEmptyParts, List.countP_cons]

lemma observed_cons_filePart (fn : String) (str : Nat) (serr : Option GoError)
    (rest : List LoopEvent) (h : fn ≠ "") :
    observedNonEmptyParts (LoopEvent.filePart fn str serr :: rest)
      = observedNonEmptyParts rest + 1 := by
  simp [observedNonEmptyParts, List.countP_cons, h]

lemma observed_cons_filePart_empty (str : Nat) (serr : Option GoError)
    (rest : List LoopEvent) :
    observedNonEmptyParts (LoopEvent.filePart "" str serr :: rest)
      = observedNonEmptyParts rest := by
  simp [observedNonEmptyParts, List.countP_cons]

lemma dropped_cons_ctxDone (rest : List LoopEvent) :
    droppedReadErrs (LoopEvent.ctxDone :: rest) = droppedReadErrs rest := by
  simp [droppedReadErrs, List.countP_cons]

lemma dropped_cons_eof (rest : List LoopEvent) :
    droppedReadErrs (LoopEvent.eofPart :: rest) = droppedReadErrs rest := by
  simp [droppedReadErrs, List.countP_cons]

lemma dropped_cons_filePart (fn : String) (str : Nat) (serr : Option GoError)
    (rest : List LoopEvent) :
    droppedReadErrs (LoopEvent.filePart fn str serr :: rest) = droppedReadErrs rest := by
  simp [droppedReadErrs, List.countP_cons]

lemma dropped_cons_readErr (e : GoError) (rest : List LoopEvent) :
    droppedReadErrs (LoopEvent.readErr e :: rest)
      = droppedReadErrs rest + (if droppedConn e then 1 else 0) := by
  simp [droppedReadErrs, List.countP_cons]

/-- C3 amended: at every point of the loop, `saved + failed` is bounded by
the number of parts with non-empty filenames observed so far **plus** the
number of recoverable (dropped-connection) `NextPart` errors encountered,
since each of the latter also increments `failed`.  The state after
consuming any prefix of the event stream equals the final state of running
the loop on that prefix, so quantifying over all event lists covers every
loop iteration. -/
theorem loop_counters_bound (subfolder : String) (s : Sess) (evs : List LoopEvent) :
    (runLoop subfolder s evs).1.sess.saved + (runLoop subfolder s evs).1.sess.failed
      ≤ s.saved + s.failed + observedNonEmptyParts evs + droppedReadErrs evs := by
  induction evs generalizing s with
  | nil =>
    simp [runLoop, LoopExit.sess, observedNonEmptyParts, droppedReadErrs]
  | cons ev rest ih =>
    cases ev with
    | ctxDone =>
      rw [observed_cons_ctxDone, dropped_cons_ctxDone]
      simp [runLoop, LoopExit.sess]
      omega
    | eofPart =>
      rw [observed_cons_eof, dropped_cons_eof]
      simp [runLoop, LoopExit.sess]
      omega
    | readErr e =>
      rw [observed_cons_readErr, dropped_cons_readErr]
      by_cases hd : droppedConn e
      · have h := ih { saved := s.saved, failed := s.failed + 1, lastError := some e }
        simp at h
        simp [runLoop, hd]
        omega
      · simp [runLoop, hd, LoopExit.sess]
        omega
    | filePart fn str serr =>
      rw [dropped_cons_filePart]
      by_cases hfn : fn = ""
      · subst hfn
        rw [observed_cons_filePart_empty]
        have h := ih s
        simp [runLoop]
        omega
      · rw [observed_cons_filePart fn str serr rest hfn]
        cases serr with
        | some e =>
          have h := ih { saved := s.saved, failed := s.failed + 1, lastError := some e }
          simp at h
          simp [runLoop, hfn]
          omega
        | none =>
          have h := ih { saved := s.saved + 1, failed := s.failed, lastError := s.lastError }
          simp at h
          simp [runLoop, hfn]
          omega

/-! ## NextPart error handling (C6) -/

/-- C6: inside the multipart loop, `io.EOF` from `NextPart` exits the loop
normally; an unexpected-end-of-data error increments `failed`, records the
error as most recent and continues with the remaining stream; every other
`NextPart` error records the error and aborts the loop; and a per-file
save failure increments `failed`, records the error and continues. -/
theorem nextPart_error_handling (subfolder : String) (s : Sess) (rest : List LoopEvent)
    (e : GoError) :
    (runLoop subfolder s (LoopEvent.eofPart :: rest)
       = (LoopExit.finished s, [Event.nextPartCall]))
  ∧ (droppedConn e = true →
      runLoop subfolder s (LoopEvent.readErr e :: rest)
        = ((runLoop subfolder { saved := s.saved, failed := s.failed + 1, lastError := some e } rest).1,
           Event.nextPartCall ::
             (runLoop subfolder { saved := s.saved, failed := s.failed + 1, lastError := some e } rest).2))
  ∧ (droppedConn e = false →
      runLoop subfolder s (LoopEvent.readErr e :: rest)
        = (LoopExit.finished { saved := s.saved, failed := s.failed, lastError := some e },
           [Event.nextPartCall]))
  ∧ (∀ fn : String, ∀ str : Nat, fn ≠ "" →
      runLoop subfolder s (LoopEvent.filePart fn str (some e) :: rest)
        = ((runLoop subfolder { saved := s.saved, failed := s.failed + 1, lastError := some e } rest).1,
           Event.nextPartCall ::
             Event.saveCall (filepathJoin subfolder (sanitizeFilename fn)) str ::
             (runLoop subfolder { saved := s.saved, failed := s.failed + 1, lastError := some e } rest).2)) := by
  refine ⟨rfl, ?_, ?_, ?_⟩
  · intro hd
    simp [runLoop, hd]
  · intro hd
    simp [runLoop, hd]
  · intro fn str hfn
    simp [runLoop, hfn]

/-- Concrete instance of `nextPart_error_handling`: a dropped-connection
error continues the loop, a framing error aborts it. -/
theorem nextPart_error_handling_witness :
    droppedConn ⟨true, "x"⟩ = true
  ∧ runLoop "S" { saved := 1, failed := 0, lastError := none }
      [LoopEvent.readErr ⟨true, "x"⟩]
      = ((runLoop "S" { saved := 1, failed := 1, lastError := some ⟨true, "x"⟩ } []).1,
         Event.nextPartCall ::
           (runLoop "S" { saved := 1, failed := 1, lastError := some ⟨true, "x"⟩ } []).2)
  ∧ droppedConn ⟨false, "bad boundary"⟩ = false
  ∧ runLoop "S" { saved := 1, failed := 0, lastError := none }
      [LoopEvent.readErr ⟨false, "bad boundary"⟩]
      = (LoopExit.finished { saved := 1, failed := 0, lastError := some ⟨false, "bad boundary"⟩ },
         [Event.nextPartCall]) :=
  ⟨by decide,
   (nextPart_error_handling "S" { saved := 1, failed := 0, lastError := none } [] ⟨true, "x"⟩).2.1
     (by decide),
   by decide,
   (nextPart_error_handling "S" { saved := 1, failed := 0, lastError := none } []
     ⟨false, "bad boundary"⟩).2.2.1 (by decide)⟩

/-! ## CAPTCHA verification (C5) -/

lemma countCaptcha_runLoop (subfolder : String) (s : Sess) (evs : List LoopEvent) :
    countCaptcha (runLoop subfolder s evs).2 = 0 := by
  induction evs generalizing s with
  | nil => simp [runLoop, countCaptcha]
  | cons ev rest ih =>
    cases ev with
    | ctxDone => simp [runLoop, countCaptcha]
    | eofPart => simp [runLoop, countCaptcha, List.countP_cons]
    | readErr e =>
      by_cases hd : droppedConn e
      · have h := ih { saved := s.saved, failed := s.failed + 1, lastError := some e }
        simp [runLoop, hd, countCaptcha, List.countP_cons] at h ⊢
        exact h
      · simp [runLoop, hd, countCaptcha, List.countP_cons]
    | filePart fn str serr =>
      by_cases hfn : fn = ""
      · have h := ih s
        simp [runLoop, hfn, countCaptcha, List.countP_cons] at h ⊢
        exact h
      · cases serr with
        | some e =>
          have h := ih { saved := s.saved, failed := s.failed + 1, lastError := some e }
          simp [runLoop, hfn, countCaptcha, List.countP_cons] at h ⊢
          exact h
        | none =>
          have h := ih { saved := s.saved + 1, failed := s.failed, lastError := s.lastError }
          simp [runLoop, hfn, countCaptcha, List.countP_cons] at h ⊢
          exact h

/-- C5: for every well-shaped upload request (POST with a parseable
multipart content type), the CAPTCHA verifier is invoked exactly once and
it is the first collaborator call the handler makes (so it precedes every
file save); a verification failure yields the single terminal 403
`CAPTCHA verification failed` response with a trace containing no
`SaveFile` call, so no file is persisted and verification is never
retried. -/
theorem captcha_once_spec (r : UploadRequest) (mt : String) (ps : List (String × String))
    (hm : r.method = "POST") (hct : r.ctParse = some (mt, ps))
    (hmp : goHasPrefix mt "multipart/" = true) :
    countCaptcha (uploadHandler r).2 = 1
  ∧ (uploadHandler r).2.head? = some Event.captchaCall
  ∧ (captchaFailed r.captcha = true →
      uploadHandler r = (httpError 403 "CAPTCHA verification failed", [Event.captchaCall])) := by
  by_cases hcap : captchaFailed r.captcha
  · refine ⟨?_, ?_, fun _ => ?_⟩ <;>
      simp [uploadHandler, hm, hct, hmp, hcap, countCaptcha, List.countP_cons]
  · refine ⟨?_, ?_, fun hc => absurd hc hcap⟩
    · have h0 := countCaptcha_runLoop r.subfolder { saved := 0, failed := 0, lastError := none }
        r.events
      simp [uploadHandler, hm, hct, hmp, hcap, countCaptcha, List.countP_cons] at h0 ⊢
      exact h0
    · simp [uploadHandler, hm, hct, hmp, hcap]

/-- Concrete instance of `captcha_once_spec`: a verifier transport error
(`captcha = none`) gives exactly one verification call and a terminal 403
with no save. -/
theorem captcha_once_spec_witness :
    countCaptcha (uploadHandler
      { method := "POST", ctParse := some ("multipart/form-data", [("boundary", "B")]),
        captcha := none, subfolder := "2025-06-01_10-00-00.000",
        events := [LoopEvent.filePart "a.txt" 1 none] }).2 = 1
  ∧ (uploadHandler
      { method := "POST", ctParse := some ("multipart/form-data", [("boundary", "B")]),
        captcha := none, subfolder := "2025-06-01_10-00-00.000",
        events := [LoopEvent.filePart "a.txt" 1 none] }).2.head? = some Event.captchaCall
  ∧ uploadHandler
      { method := "POST", ctParse := some ("multipart/form-data", [("boundary", "B")]),
        captcha := none, subfolder := "2025-06-01_10-00-00.000",
        events := [LoopEvent.filePart "a.txt" 1 none] }
      = (httpError 403 "CAPTCHA verification failed", [Event.captchaCall]) := by
  have h := captcha_once_spec
    { method := "POST", ctParse := some ("multipart/form-data", [("boundary", "B")]),
      captcha := none, subfolder := "2025-06-01_10-00-00.000",
      events := [LoopEvent.filePart "a.txt" 1 none] }
    "multipart/form-data" [("boundary", "B")] rfl rfl (by decide)
  exact ⟨h.1, h.2.1, h.2.2 rfl⟩

/-! ## Method and shape validation (C4) -/

/-- C4 as stated is false on the code for the boundary clause: the handler
only rejects before CAPTCHA when `mime.ParseMediaType` errors or the media
type is not `multipart/*`.  The request below has Content-Type
`multipart/form-data` with no parameters at all (so no usable boundary
token — `ParseMediaType` parses it successfully with an empty parameter
map), yet the handler still calls the CAPTCHA verifier and still reads the
body, contradicting the claim that such requests are rejected with no
CAPTCHA call and no body read. -/
theorem shape_validation_boundary_cex :
    Event.captchaCall ∈ (uploadHandler
      { method := "POST", ctParse := some ("multipart/form-data", []),
        captcha := some true, subfolder := "2025-06-02_11-00-00.000",
        events := [LoopEvent.eofPart] }).2
  ∧ Event.nextPartCall ∈ (uploadHandler
      { method := "POST", ctParse := some ("multipart/form-data", []),
        captcha := some true, subfolder := "2025-06-02_11-00-00.000",
        events := [LoopEvent.eofPart] }).2 := by
  decide

/-- C4 amended: a non-POST request is answered 405 `Only POST allowed`
with an empty collaborator trace (no CAPTCHA call, no body read),
regardless of body content; a POST whose Content-Type fails
`mime.ParseMediaType` or whose media type is not `multipart/*` is answered
400 `Invalid Content-Type`, again with an empty trace.  A multipart media
type whose parameters lack a boundary token is **not** rejected at this
stage. -/
theorem shape_validation_spec (r : UploadRequest) :
    (r.method ≠ "POST" → uploadHandler r = (httpError 405 "Only POST allowed", []))
  ∧ (r.method = "POST" → r.ctParse = none →
      uploadHandler r = (httpError 400 "Invalid Content-Type", []))
  ∧ (∀ mt : String, ∀ ps : List (String × String),
      r.method = "POST" → r.ctParse = some (mt, ps) →
      goHasPrefix mt "multipart/" = false →
      uploadHandler r = (httpError 400 "Invalid Content-Type", [])) := by
  refine ⟨fun hm => ?_, fun hm hct => ?_, fun mt ps hm hct hmp => ?_⟩
  · simp [uploadHandler, hm]
  · simp [uploadHandler, hm, hct]
  · simp [uploadHandler, hm, hct, hmp]

/-- Concrete instance of `shape_validation_spec`: a GET request is
answered 405 with no collaborator call, and a POST with a `text/plain`
content type is answered 400 with no collaborator call. -/
theorem shape_validation_spec_witness :
    uploadHandler
      { method := "GET", ctParse := some ("multipart/form-data", [("boundary", "B")]),
        captcha := some true, subfolder := "S", events := [LoopEvent.eofPart] }
      = (httpError 405 "Only POST allowed", [])
  ∧ uploadHandler
      { method := "POST", ctParse := some ("text/plain", []),
        captcha := some true, subfolder := "S", events := [LoopEvent.eofPart] }
      = (httpError 400 "Invalid Content-Type", []) :=
  ⟨(shape_validation_spec
      { method := "GET", ctParse := some ("multipart/form-data", [("boundary", "B")]),
        captcha := some true, subfolder := "S", events := [LoopEvent.eofPart] }).1
      (by decide),
   (shape_validation_spec
      { method := "POST", ctParse := some ("text/plain", []),
        captcha := some true, subfolder := "S", events := [LoopEvent.eofPart] }).2.2
      "text/plain" [] rfl rfl (by decide)⟩

/-! ## Outcome classification (C1) -/

/-- C1: for every request that passes shape validation and CAPTCHA
verification, the response is exactly `classify` of the loop outcome (no
other exit path exists after that point), and `classify` realises each row
of the Step-6 table over (deadline elapsed, saved, failed, last error):
deadline elapsed with files saved gives a 206 partial response naming both
counts; deadline elapsed with nothing saved gives 408 `Upload timed out`;
a normally exited loop with nothing saved and no error gives 400
`No files uploaded`; nothing saved with a dropped-connection last error
gives the 400 connection-guidance body; nothing saved with any other last
error gives 400 `Upload failed: <error>`; files saved with failures gives
a 206 partial; files saved with no failures gives 201 `Uploaded N
file(s)`. -/
theorem uploadHandler_step6_table (r : UploadRequest) (mt : String)
    (ps : List (String × String)) (hm : r.method = "POST")
    (hct : r.ctParse = some (mt, ps)) (hmp : goHasPrefix mt "multipart/" = true)
    (hcap : captchaFailed r.captcha = false) :
    (uploadHandler r).1
      = classify (runLoop r.subfolder { saved := 0, failed := 0, lastError := none } r.events).1
  ∧ (∀ s : Sess, 0 < s.saved →
      classify (LoopExit.timedOut s)
        = ⟨206, "Upload partially completed: " ++ toString s.saved ++ " file(s) uploaded, "
            ++ toString s.failed ++ " failed due to timeout"⟩)
  ∧ (∀ s : Sess, s.saved = 0 →
      classify (LoopExit.timedOut s) = httpError 408 "Upload timed out")
  ∧ (∀ s : Sess, s.saved = 0 → s.lastError = none →
      classify (LoopExit.finished s) = httpError 400 "No files uploaded")
  ∧ (∀ s : Sess, ∀ e : GoError, s.saved = 0 → s.lastError = some e → droppedConn e = true →
      classify (LoopExit.finished s)
        = httpError 400
            "Upload failed due to connection issues. Please check your internet connection and try again.")
  ∧ (∀ s : Sess, ∀ e : GoError, s.saved = 0 → s.lastError = some e → droppedConn e = false →
      classify (LoopExit.finished s) = httpError 400 ("Upload failed: " ++ e.msg))
  ∧ (∀ s : Sess, 0 < s.saved → 0 < s.failed →
      classify (LoopExit.finished s)
        = ⟨206, "Partially successful: " ++ toString s.saved ++ " file(s) uploaded, "
            ++ toString s.failed ++ " failed"⟩)
  ∧ (∀ s : Sess, 0 < s.saved → s.failed = 0 →
      classify (LoopExit.finished s) = ⟨201, "Uploaded " ++ toString s.saved ++ " file(s)"⟩) := by
  refine ⟨?_, ?_, ?_, ?_, ?_, ?_, ?_, ?_⟩
  · simp [uploadHandler, hm, hct, hmp, hcap]
  · intro s hs
    simp [classify, hs]
  · intro s hs
    simp [classify, hs]
  · intro s hs hle
    simp [classify, hs, hle]
  · intro s e hs hle hd
    simp [classify, hs, hle, hd]
  · intro s e hs hle hd
    simp [classify, hs, hle, hd]
  · intro s hs hf
    simp [classify, Nat.pos_iff_ne_zero.mp hs, hf]
  · intro s hs hf
    simp [classify, Nat.pos_iff_ne_zero.mp hs, hf]

/-- Concrete instance of `uploadHandler_step6_table`: a valid request whose
body ends immediately is classified by `classify`, and a session with two
saves and no failures is answered 201. -/
theorem uploadHandler_step6_table_witness :
    (uploadHandler
      { method := "POST", ctParse := some ("multipart/form-data", [("boundary", "B")]),
        captcha := some true, subfolder := "2025-06-03_12-00-00.000",
        events := [LoopEvent.eofPart] }).1
      = classify (runLoop "2025-06-03_12-00-00.000" { saved := 0, failed := 0, lastError := none }
          [LoopEvent.eofPart]).1
  ∧ classify (LoopExit.finished { saved := 2, failed := 0, lastError := none })
      = ⟨201, "Uploaded " ++ toString 2 ++ " file(s)"⟩ := by
  have h := uploadHandler_step6_table
    { method := "POST", ctParse := some ("multipart/form-data", [("boundary", "B")]),
      captcha := some true, subfolder := "2025-06-03_12-00-00.000",
      events := [LoopEvent.eofPart] }
    "multipart/form-data" [("boundary", "B")] rfl rfl (by decide) (by decide)
  exact ⟨h.1, h.2.2.2.2.2.2.2 { saved := 2, failed := 0, lastError := none } (by decide) rfl⟩

/-! ## Lemmas about the path model -/

lemma stringMk_data (s : String) : String.mk s.data = s := rfl

lemma splitSlash_ne_nil (l : List Char) : splitSlash l ≠ [] := by
  cases l with
  | nil => simp [splitSlash]
  | cons c cs =>
    simp only [splitSlash]
    by_cases h : c = '/'
    · simp [h]
    · simp only [h, if_false]
      cases splitSlash cs <;> simp

lemma splitSlash_append (a b : List Char) :
    splitSlash (a ++ '/' :: b) = splitSlash a ++ splitSlash b := by
  induction a with
  | nil => simp [splitSlash]
  | cons c cs ih =>
    by_cases h : c = '/'
    · simp [splitSlash, h, ih]
    · simp only [List.cons_append, splitSlash, h, if_false, List.append_eq]
      rw [ih]
      cases hs : splitSlash cs with
      | nil => exact absurd hs (splitSlash_ne_nil cs)
      | cons p ps => simp

lemma splitSlash_no_slash (l : List Char) (h : '/' ∉ l) : splitSlash l = [l] := by
  induction l with
  | nil => rfl
  | cons c cs ih =>
    have hc : ¬ c = '/' := fun hh => h (by simp [hh])
    have hcs : '/' ∉ cs := fun hm => h (List.mem_cons_of_mem _ hm)
    simp [splitSlash, hc, ih hcs]

lemma splitSlash_comps_no_slash (l : List Char) :
    ∀ p ∈ splitSlash l, '/' ∉ p := by
  induction l with
  | nil => simp [splitSlash]
  | cons c cs ih =>
    intro p hp
    by_cases h : c = '/'
    · simp [splitSlash, h] at hp
      rcases hp with hp | hp
      · simp [hp]
      · exact ih p hp
    · simp only [splitSlash, h, if_false] at hp
      cases hs : splitSlash cs with
      | nil => exact absurd hs (splitSlash_ne_nil cs)
      | cons q qs =>
        rw [hs] at hp
        simp only [List.mem_cons] at hp
        rcases hp with hp | hp
        · subst hp
          intro hmem
          rcases List.mem_cons.mp hmem with h1 | h1
          · exact h h1.symm
          · exact ih q (by simp [hs]) h1
        · exact ih p (by simp [hs, hp])

lemma splitSlash_intercalate (ps : List (List Char)) (hne : ps ≠ [])
    (h : ∀ p ∈ ps, '/' ∉ p) : splitSlash (intercalateSlash ps) = ps := by
  induction ps with
  | nil => cases hne rfl
  | cons p qs ih =>
    cases qs with
    | nil => simp [intercalateSlash, splitSlash_no_slash p (h p (by simp))]
    | cons q rs =>
      have hstep : intercalateSlash (p :: q :: rs) = p ++ '/' :: intercalateSlash (q :: rs) := rfl
      rw [hstep, splitSlash_append, splitSlash_no_slash p (h p (by simp)),
        ih (by simp) (fun r hr => h r (by simp [hr]))]
      simp

lemma cleanStack_skip (rooted : Bool) (acc ps : List (List Char)) (p : List Char)
    (h : p = [] ∨ p = ['.']) :
    cleanStack rooted acc (p :: ps) = cleanStack rooted acc ps := by
  simp [cleanStack, h]

lemma cleanStack_push (rooted : Bool) (acc ps : List (List Char)) (p : List Char)
    (h1 : ¬(p = [] ∨ p = ['.'])) (h2 : p ≠ dotdot) :
    cleanStack rooted acc (p :: ps) = cleanStack rooted (p :: acc) ps := by
  simp [cleanStack, h1, h2]

lemma cleanStack_dd_nil_rooted (ps : List (List Char)) :
    cleanStack true [] (dotdot :: ps) = cleanStack true [] ps := by
  simp [cleanStack, dotdot]

lemma cleanStack_dd_nil_rel (ps : List (List Char)) :
    cleanStack false [] (dotdot :: ps) = cleanStack false [dotdot] ps := by
  simp [cleanStack, dotdot]

lemma cleanStack_dd_dd (rooted : Bool) (qs ps : List (List Char)) :
    cleanStack rooted (dotdot :: qs) (dotdot :: ps)
      = cleanStack rooted (dotdot :: dotdot :: qs) ps := by
  simp [cleanStack, dotdot]

lemma cleanStack_dd_pop (rooted : Bool) (q : List Char) (qs ps : List (List Char))
    (hq : q ≠ dotdot) :
    cleanStack rooted (q :: qs) (dotdot :: ps) = cleanStack rooted qs ps := by
  simp [cleanStack, dotdot]
  intro h
  exact absurd (by simp [dotdot, h]) hq

lemma cleanStack_append (rooted : Bool) (acc xs ys : List (List Char)) :
    cleanStack rooted acc (xs ++ ys) = cleanStack rooted (cleanStack rooted acc xs) ys := by
  induction xs generalizing acc with
  | nil => rfl
  | cons p ps ih =>
    rw [List.cons_append]
    by_cases h1 : p = [] ∨ p = ['.']
    · rw [cleanStack_skip rooted acc _ p h1, cleanStack_skip rooted acc ps p h1]
      exact ih acc
    · by_cases h2 : p = dotdot
      · subst h2
        cases acc with
        | nil =>
          cases rooted with
          | true =>
            rw [cleanStack_dd_nil_rooted, cleanStack_dd_nil_rooted]
            exact ih []
          | false =>
            rw [cleanStack_dd_nil_rel, cleanStack_dd_nil_rel]
            exact ih [dotdot]
        | cons q qs =>
          by_cases hq : q = dotdot
          · subst hq
            rw [cleanStack_dd_dd, cleanStack_dd_dd]
            exact ih _
          · rw [cleanStack_dd_pop rooted q qs _ hq, cleanStack_dd_pop rooted q qs ps hq]
            exact ih qs
      · rw [cleanStack_push rooted acc _ p h1 h2, cleanStack_push rooted acc ps p h1 h2]
        exact ih _

lemma cleanStack_pushes (rooted : Bool) (acc ys : List (List Char))
    (h : ∀ p ∈ ys, ¬(p = [] ∨ p = ['.']) ∧ p ≠ dotdot) :
    cleanStack rooted acc ys = ys.reverse ++ acc := by
  induction ys generalizing acc with
  | nil => simp [cleanStack]
  | cons p ps ih =>
    have hp := h p (by simp)
    simp only [cleanStack, hp.1, if_false, hp.2]
    rw [ih (p :: acc) (fun q hq => h q (by simp [hq]))]
    simp

lemma cleanStack_extends (rooted : Bool) (acc ys : List (List Char))
    (h : ∀ p ∈ ys, p ≠ dotdot) :
    ∃ zs, cleanStack rooted acc ys = zs ++ acc := by
  induction ys generalizing acc with
  | nil => exact ⟨[], rfl⟩
  | cons p ps ih =>
    have hp := h p (by simp)
    by_cases h1 : p = [] ∨ p = ['.']
    · simp only [cleanStack, h1, if_true]
      exact ih acc (fun q hq => h q (by simp [hq]))
    · simp only [cleanStack, h1, if_false, hp]
      obtain ⟨zs, hz⟩ := ih (p :: acc) (fun q hq => h q (by simp [hq]))
      exact ⟨zs ++ [p], by rw [hz]; simp⟩

lemma cleanStack_dotdots (k m : Nat) :
    cleanStack false (List.replicate m dotdot) (List.replicate k dotdot)
      = List.replicate (k + m) dotdot := by
  induction k generalizing m with
  | zero => simp [cleanStack]
  | succ k ih =>
    cases m with
    | zero =>
      have h1 : List.replicate (k + 1) dotdot = dotdot :: List.replicate k dotdot := rfl
      rw [h1, List.replicate_zero, cleanStack_dd_nil_rel,
        show [dotdot] = List.replicate 1 dotdot from rfl, ih 1]
      exact h1
    | succ m =>
      have h1 : List.replicate (k + 1) dotdot = dotdot :: List.replicate k dotdot := rfl
      have h2 : List.replicate (m + 1) dotdot = dotdot :: List.replicate m dotdot := rfl
      rw [h1, h2, cleanStack_dd_dd,
        show dotdot :: dotdot :: List.replicate m dotdot = List.replicate (m + 2) dotdot from rfl,
        ih (m + 2)]
      congr 1
      omega

/-- Well-formedness of a `cleanStack` stack: every entry is a non-empty,
non-`"."`, slash-free component, and the `".."` entries sit at the bottom
of the stack (none at all when the path is rooted). -/
def stackOK (rooted : Bool) (acc : List (List Char)) : Prop :=
  (∀ p ∈ acc, p ≠ [] ∧ p ≠ ['.'] ∧ '/' ∉ p)
  ∧ ∃ g k, acc = g ++ List.replicate k dotdot ∧ dotdot ∉ g ∧ (rooted = true → k = 0)

lemma stackOK_nil (rooted : Bool) : stackOK rooted [] :=
  ⟨by simp, [], 0, by simp, by simp, fun _ => rfl⟩

lemma cleanStack_stackOK (rooted : Bool) (l : List (List Char)) :
    ∀ acc : List (List Char), stackOK rooted acc → (∀ p ∈ l, '/' ∉ p) →
      stackOK rooted (cleanStack rooted acc l) := by
  induction l with
  | nil => exact fun acc hacc _ => hacc
  | cons p ps ih =>
    intro acc hacc hps
    have hps' : ∀ q ∈ ps, '/' ∉ q := fun q hq => hps q (by simp [hq])
    by_cases h1 : p = [] ∨ p = ['.']
    · rw [cleanStack_skip rooted acc ps p h1]
      exact ih acc hacc hps'
    · by_cases h2 : p = dotdot
      · subst h2
        cases acc with
        | nil =>
          cases rooted with
          | true =>
            rw [cleanStack_dd_nil_rooted]
            exact ih [] (stackOK_nil true) hps'
          | false =>
            rw [cleanStack_dd_nil_rel]
            refine ih [dotdot] ⟨?_, [], 1, by simp, by simp, by simp⟩ hps'
            intro q hq
            simp only [List.mem_singleton] at hq
            subst hq
            exact ⟨by simp [dotdot], by simp [dotdot], by simp [dotdot]⟩
        | cons q qs =>
          obtain ⟨hcomp, g, k, heq, hg, hk⟩ := hacc
          by_cases hq : q = dotdot
          · subst hq
            rw [cleanStack_dd_dd]
            have hgnil : g = [] := by
              cases g with
              | nil => rfl
              | cons x xs =>
                rw [List.cons_append] at heq
                injection heq with hx _
                subst hx
                exact absurd (List.mem_cons_self _ _) hg
            subst hgnil
            simp only [List.nil_append] at heq
            refine ih (dotdot :: dotdot :: qs) ⟨?_, [], k + 1, ?_, by simp, ?_⟩ hps'
            · intro r hr
              rcases List.mem_cons.mp hr with hr | hr
              · subst hr
                exact ⟨by simp [dotdot], by simp [dotdot], by simp [dotdot]⟩
              · exact hcomp r hr
            · rw [List.nil_append,
                show List.replicate (k + 1) dotdot = dotdot :: List.replicate k dotdot from rfl,
                ← heq]
            · intro hrt
              rw [hk hrt] at heq
              simp at heq
          · rw [cleanStack_dd_pop rooted q qs ps hq]
            cases g with
            | nil =>
              simp only [List.nil_append] at heq
              cases k with
              | zero => simp at heq
              | succ k =>
                rw [show List.replicate (k + 1) dotdot = dotdot :: List.replicate k dotdot
                  from rfl] at heq
                injection heq with hx _
                exact absurd hx hq
            | cons x g' =>
              rw [List.cons_append] at heq
              injection heq with hx hqs
              refine ih qs ⟨?_, g', k, hqs, ?_, hk⟩ hps'
              · exact fun r hr => hcomp r (List.mem_cons_of_mem _ hr)
              · exact fun hdd => hg (List.mem_cons_of_mem _ hdd)
      · rw [cleanStack_push rooted acc ps p h1 h2]
        obtain ⟨hcomp, g, k, heq, hg, hk⟩ := hacc
        push_neg at h1
        refine ih (p :: acc) ⟨?_, p :: g, k, by simp [heq], ?_, hk⟩ hps'
        · intro r hr
          rcases List.mem_cons.mp hr with hr | hr
          · subst hr
            exact ⟨h1.1, h1.2, hps r (by simp)⟩
          · exact hcomp r hr
        · intro hdd
          rcases List.mem_cons.mp hdd with hdd | hdd
          · exact h2 hdd.symm
          · exact hg hdd

lemma intercalateSlash_cons (r : List Char) (rs : List (List Char)) :
    ∃ t, intercalateSlash (r :: rs) = r ++ t := by
  cases rs with
  | nil => exact ⟨[], by simp [intercalateSlash]⟩
  | cons q qs => exact ⟨'/' :: intercalateSlash (q :: qs), rfl⟩

lemma cleanStack_reverse (rooted : Bool) (P : List (List Char)) (hOK : stackOK rooted P) :
    cleanStack rooted [] P.reverse = P := by
  obtain ⟨hcomp, g, k, heq, hg, hk⟩ := hOK
  subst heq
  rw [List.reverse_append, List.reverse_replicate, cleanStack_append]
  have hstep1 : cleanStack rooted [] (List.replicate k dotdot) = List.replicate k dotdot := by
    cases rooted with
    | true =>
      rw [hk rfl]
      rfl
    | false =>
      have h := cleanStack_dotdots k 0
      simpa using h
  rw [hstep1, cleanStack_pushes rooted (List.replicate k dotdot) g.reverse ?hgood]
  · simp
  case hgood =>
    intro p hp
    rw [List.mem_reverse] at hp
    have hc := hcomp p (List.mem_append_left _ hp)
    refine ⟨?_, fun hdd => hg (hdd ▸ hp)⟩
    intro hor
    rcases hor with h | h
    · exact hc.1 h
    · exact hc.2.1 h

lemma filepathClean_resolve (s : String) :
    isRootedL (filepathClean s).data = isRootedL s.data
  ∧ resolveStack (filepathClean s) = resolveStack s := by
  have hOK : stackOK (isRootedL s.data)
      (cleanStack (isRootedL s.data) [] (splitSlash s.data)) :=
    cleanStack_stackOK (isRootedL s.data) (splitSlash s.data) []
      (stackOK_nil _) (splitSlash_comps_no_slash s.data)
  have hdata : (filepathClean s).data
      = renderPath (isRootedL s.data)
          (cleanStack (isRootedL s.data) [] (splitSlash s.data)).reverse := rfl
  have hres : resolveStack s = cleanStack (isRootedL s.data) [] (splitSlash s.data) := rfl
  have hunf : resolveStack (filepathClean s)
      = cleanStack (isRootedL (filepathClean s).data) []
          (splitSlash (filepathClean s).data) := rfl
  cases hPrev : (cleanStack (isRootedL s.data) [] (splitSlash s.data)).reverse with
  | nil =>
    have hPnil : cleanStack (isRootedL s.data) [] (splitSlash s.data) = [] := by
      have := congrArg List.reverse hPrev
      simpa using this
    cases hrt : isRootedL s.data with
    | true =>
      have hd : (filepathClean s).data = ['/'] := by
        rw [hdata, hPrev, hrt]
        rfl
      constructor
      · rw [hd]
        decide
      · rw [hres, hPnil, hunf, hd]
        decide
    | false =>
      have hd : (filepathClean s).data = ['.'] := by
        rw [hdata, hPrev, hrt]
        rfl
      constructor
      · rw [hd]
        decide
      · rw [hres, hPnil, hunf, hd]
        decide
  | cons r0 rs =>
    have hcomps : ∀ p ∈ r0 :: rs, p ≠ [] ∧ p ≠ ['.'] ∧ '/' ∉ p := by
      intro p hp
      refine hOK.1 p ?_
      rw [← List.mem_reverse, hPrev]
      exact hp
    have hr0 := hcomps r0 (by simp)
    have hsplit : splitSlash (intercalateSlash (r0 :: rs)) = r0 :: rs :=
      splitSlash_intercalate (r0 :: rs) (by simp) (fun p hp => (hcomps p hp).2.2)
    have hrev : cleanStack (isRootedL s.data) []
        ((cleanStack (isRootedL s.data) [] (splitSlash s.data)).reverse)
        = cleanStack (isRootedL s.data) [] (splitSlash s.data) :=
      cleanStack_reverse _ _ hOK
    rw [hPrev] at hrev
    cases hrt : isRootedL s.data with
    | true =>
      have hd : (filepathClean s).data = '/' :: intercalateSlash (r0 :: rs) := by
        rw [hdata, hPrev, hrt]
        rfl
      have hroot2 : isRootedL ('/' :: intercalateSlash (r0 :: rs)) = true := by
        simp [isRootedL]
      constructor
      · rw [hd, hroot2]
      · rw [hrt] at hres hrev
        rw [hres, hunf, hd, hroot2]
        have hsp : splitSlash ('/' :: intercalateSlash (r0 :: rs)) = [] :: (r0 :: rs) := by
          simp [splitSlash, hsplit]
        rw [hsp, cleanStack_skip true [] (r0 :: rs) [] (Or.inl rfl)]
        exact hrev
    | false =>
      obtain ⟨t, ht⟩ := intercalateSlash_cons r0 rs
      have hd : (filepathClean s).data = intercalateSlash (r0 :: rs) := by
        rw [hdata, hPrev, hrt]
        rfl
      have hroot2 : isRootedL (intercalateSlash (r0 :: rs)) = false := by
        rw [ht]
        cases hr : r0 with
        | nil => exact absurd hr hr0.1
        | cons c cc =>
          have hc : ¬ c = '/' := by
            intro hcc
            exact hr0.2.2 (by rw [hr, hcc]; exact List.mem_cons_self _ _)
          simp [isRootedL, hc]
      constructor
      · rw [hd, hroot2]
      · rw [hrt] at hres hrev
        rw [hres, hunf, hd, hroot2, hsplit]
        exact hrev

lemma stringData_ext (a b : String) (h : a.data = b.data) : a = b := by
  cases a
  cases b
  simp only [] at h
  subst h
  rfl

lemma isRootedL_cons (c : Char) (l : List Char) :
    isRootedL (c :: l) = decide (c = '/') := rfl

lemma filepathJoin_within (base n : String) (hb : base.data ≠ [])
    (hn : ∀ p ∈ splitSlash n.data, p ≠ dotdot) :
    pathWithin base (filepathJoin base n) := by
  have hjoin : filepathJoin base n = filepathClean ⟨base.data ++ '/' :: n.data⟩ := by
    simp [filepathJoin, hb]
  obtain ⟨c, t, hct⟩ : ∃ c t, base.data = c :: t := by
    cases hcb : base.data with
    | nil => exact absurd hcb hb
    | cons c t => exact ⟨c, t, rfl⟩
  have hrootX : isRootedL (base.data ++ '/' :: n.data) = isRootedL base.data := by
    rw [hct]
    rfl
  have hsplitX : splitSlash (base.data ++ '/' :: n.data)
      = splitSlash base.data ++ splitSlash n.data := splitSlash_append _ _
  have hrt := filepathClean_resolve ⟨base.data ++ '/' :: n.data⟩
  have h3 : resolveStack ⟨base.data ++ '/' :: n.data⟩
      = cleanStack (isRootedL base.data) (resolveStack base) (splitSlash n.data) := by
    show cleanStack (isRootedL (base.data ++ '/' :: n.data)) []
        (splitSlash (base.data ++ '/' :: n.data))
      = cleanStack (isRootedL base.data) (resolveStack base) (splitSlash n.data)
    rw [hrootX, hsplitX, cleanStack_append]
    rfl
  constructor
  · rw [hjoin]
    rw [hrt.1]
    exact hrootX
  · rw [hjoin]
    obtain ⟨zs, hz⟩ := cleanStack_extends (isRootedL base.data) (resolveStack base)
      (splitSlash n.data) hn
    show resolveParts base <+: resolveParts (filepathClean ⟨base.data ++ '/' :: n.data⟩)
    unfold resolveParts
    rw [hrt.2, h3, hz, List.reverse_append]
    exact ⟨zs.reverse, rfl⟩

lemma filepathJoin_component (sub s : String)
    (h1 : '/' ∉ sub.data) (h2 : sub.data ≠ []) (h3 : sub.data ≠ ['.'])
    (h4 : sub.data ≠ dotdot) (hs : '/' ∉ s.data) :
    ((s.data = [] ∨ s.data = ['.']) → filepathJoin sub s = sub)
  ∧ (s.data = dotdot → (filepathJoin sub s).data = ['.'])
  ∧ (s.data ≠ [] → s.data ≠ ['.'] → s.data ≠ dotdot →
      (filepathJoin sub s).data = sub.data ++ '/' :: s.data) := by
  have hjoin : filepathJoin sub s = filepathClean ⟨sub.data ++ '/' :: s.data⟩ := by
    simp [filepathJoin, h2]
  have hsplitX : splitSlash (sub.data ++ '/' :: s.data) = [sub.data, s.data] := by
    rw [splitSlash_append, splitSlash_no_slash sub.data h1, splitSlash_no_slash s.data hs]
    rfl
  have hrootX : isRootedL (sub.data ++ '/' :: s.data) = false := by
    cases hcb : sub.data with
    | nil => exact absurd hcb h2
    | cons c t =>
      rw [hcb] at h1
      have hc : ¬ c = '/' := fun hcc => h1 (by simp [hcc])
      simp [isRootedL_cons, hc]
  have hdata : (filepathClean ⟨sub.data ++ '/' :: s.data⟩).data
      = renderPath false (cleanStack false [] [sub.data, s.data]).reverse := by
    show renderPath (isRootedL (sub.data ++ '/' :: s.data))
        (cleanStack (isRootedL (sub.data ++ '/' :: s.data)) []
          (splitSlash (sub.data ++ '/' :: s.data))).reverse
      = renderPath false (cleanStack false [] [sub.data, s.data]).reverse
    rw [hrootX, hsplitX]
  have hpush : cleanStack false [] [sub.data, s.data]
      = cleanStack false [sub.data] [s.data] :=
    cleanStack_push false [] [s.data] sub.data (by push_neg; exact ⟨h2, h3⟩) h4
  refine ⟨?_, ?_, ?_⟩
  · intro hcase
    apply stringData_ext
    rw [hjoin, hdata, hpush, cleanStack_skip false [sub.data] [] s.data hcase]
    rfl
  · intro hcase
    rw [hjoin, hdata, hpush, hcase, cleanStack_dd_pop false sub.data [] [] h4]
    rfl
  · intro hc1 hc2 hc3
    rw [hjoin, hdata, hpush,
      cleanStack_push false [sub.data] [] s.data (by push_neg; exact ⟨hc1, hc2⟩) hc3]
    rfl

lemma handlerName_no_dotdot (sub fn : String)
    (h1 : '/' ∉ sub.data) (h2 : sub.data ≠ []) (h3 : sub.data ≠ ['.'])
    (h4 : sub.data ≠ dotdot) :
    ∀ p ∈ splitSlash (filepathJoin sub (sanitizeFilename fn)).data, p ≠ dotdot := by
  have hs := sanitize_no_slash fn
  have hcomp := filepathJoin_component sub (sanitizeFilename fn) h1 h2 h3 h4 hs
  by_cases hcase : (sanitizeFilename fn).data = [] ∨ (sanitizeFilename fn).data = ['.']
  · rw [hcomp.1 hcase, splitSlash_no_slash sub.data h1]
    intro p hp
    simp only [List.mem_singleton] at hp
    subst hp
    exact h4
  · by_cases hdd : (sanitizeFilename fn).data = dotdot
    · rw [hcomp.2.1 hdd]
      decide
    · push_neg at hcase
      rw [hcomp.2.2 hcase.1 hcase.2 hdd, splitSlash_append,
        splitSlash_no_slash sub.data h1, splitSlash_no_slash _ hs]
      intro p hp
      simp at hp
      rcases hp with hp | hp <;> subst hp
      · exact h4
      · exact hdd

lemma saveCall_shape (subfolder : String) (evs : List LoopEvent) :
    ∀ s : Sess, ∀ name : String, ∀ str : Nat,
      Event.saveCall name str ∈ (runLoop subfolder s evs).2 →
      ∃ fn serr, LoopEvent.filePart fn str serr ∈ evs ∧ fn ≠ ""
        ∧ name = filepathJoin subfolder (sanitizeFilename fn) := by
  induction evs with
  | nil =>
    intro s name str h
    simp [runLoop] at h
  | cons ev rest ih =>
    intro s name str h
    cases ev with
    | ctxDone => simp [runLoop] at h
    | eofPart => simp [runLoop] at h
    | readErr e =>
      by_cases hd : droppedConn e
      · simp [runLoop, hd] at h
        obtain ⟨fn, serr, hmem, hne, heq⟩ := ih _ name str h
        exact ⟨fn, serr, by simp [hmem], hne, heq⟩
      · simp [runLoop, hd] at h
    | filePart fn0 str0 serr0 =>
      by_cases hfn : fn0 = ""
      · subst hfn
        simp [runLoop] at h
        obtain ⟨fn, serr, hmem, hne, heq⟩ := ih _ name str h
        exact ⟨fn, serr, by simp [hmem], hne, heq⟩
      · cases serr0 with
        | some e =>
          simp [runLoop, hfn] at h
          rcases h with ⟨hname, hstr⟩ | h
          · subst hstr
            exact ⟨fn0, some e, by simp, hfn, hname⟩
          · obtain ⟨fn, serr, hmem, hne, heq⟩ := ih _ name str h
            exact ⟨fn, serr, by simp [hmem], hne, heq⟩
        | none =>
          simp [runLoop, hfn] at h
          rcases h with ⟨hname, hstr⟩ | h
          · subst hstr
            exact ⟨fn0, none, by simp, hfn, hname⟩
          · obtain ⟨fn, serr, hmem, hne, heq⟩ := ih _ name str h
            exact ⟨fn, serr, by simp [hmem], hne, heq⟩

lemma saveCall_handler (r : UploadRequest) (name : String) (str : Nat)
    (h : Event.saveCall name str ∈ (uploadHandler r).2) :
    ∃ fn serr, LoopEvent.filePart fn str serr ∈ r.events ∧ fn ≠ ""
      ∧ name = filepathJoin r.subfolder (sanitizeFilename fn) := by
  by_cases hm : r.method = "POST"
  · cases hct : r.ctParse with
    | none => simp [uploadHandler, hm, hct] at h
    | some mp =>
      obtain ⟨mt, ps⟩ := mp
      by_cases hmp : goHasPrefix mt "multipart/"
      · by_cases hcap : captchaFailed r.captcha
        · simp [uploadHandler, hm, hct, hmp, hcap] at h
        · simp [uploadHandler, hm, hct, hmp, hcap] at h
          exact saveCall_shape r.subfolder r.events _ name str h
      · simp [uploadHandler, hm, hct, hmp] at h
  · simp [uploadHandler, hm] at h

lemma isPrefixOfCh_append (a b : List Char) : isPrefixOfCh a (a ++ b) = true := by
  induction a with
  | nil => rfl
  | cons c cs ih => simp [isPrefixOfCh, ih]

lemma stringData_append (a b : String) : (a ++ b).data = a.data ++ b.data := rfl

/-- C7 as stated is false in its name-template part: for a part named
`".."` (no separator characters, so the sanitizer keeps it), the name
passed to `SaveFile` is `filepath.Join(sid, "..") = "."`, not the string
`{sessionIdentifier}/{sanitizedFilename}`. -/
theorem save_name_template_cex :
    Event.saveCall "." 5 ∈ (uploadHandler
      { method := "POST", ctParse := some ("multipart/form-data", [("boundary", "Z")]),
        captcha := some true, subfolder := "2025-05-05_05-05-05.555",
        events := [LoopEvent.filePart ".." 5 none, LoopEvent.eofPart] }).2
  ∧ "." ≠ "2025-05-05_05-05-05.555" ++ "/" ++ sanitizeFilename ".." := by
  decide

/-- C7 amended: every name the handler passes to `SaveFile` is
`filepath.Join(sessionIdentifier, sanitizeFilename(filename))` for some
part of the session (this equals the literal `{sid}/{sanitized}` except
when the sanitized filename is empty, `"."` or `".."`, which `Join`
collapses), and such a name never escapes the storage root: under
`LocalStorage`, `filepath.Join(BasePath, name)` always denotes a path
within `BasePath`, because the sanitizer removes every separator character
and the session identifier contains none. -/
theorem save_paths_confined (r : UploadRequest) (name : String) (str : Nat)
    (hs1 : '/' ∉ r.subfolder.data) (hs2 : r.subfolder.data ≠ [])
    (hs3 : r.subfolder.data ≠ ['.']) (hs4 : r.subfolder.data ≠ dotdot)
    (hmem : Event.saveCall name str ∈ (uploadHandler r).2) :
    (∃ fn serr, LoopEvent.filePart fn str serr ∈ r.events ∧ fn ≠ ""
       ∧ name = filepathJoin r.subfolder (sanitizeFilename fn))
  ∧ ∀ base : String, base.data ≠ [] → pathWithin base (filepathJoin base name) := by
  obtain ⟨fn, serr, hev, hne, hname⟩ := saveCall_handler r name str hmem
  refine ⟨⟨fn, serr, hev, hne, hname⟩, ?_⟩
  intro base hb
  refine filepathJoin_within base name hb ?_
  rw [hname]
  exact handlerName_no_dotdot r.subfolder fn hs1 hs2 hs3 hs4

/-- Concrete instance of `save_paths_confined`: the file `a.txt` saved in
session `2025-01-02_15-04-05.000` goes to
`2025-01-02_15-04-05.000/a.txt`, which stays within the storage root
`/var/uploads`. -/
theorem save_paths_confined_witness :
    (∃ fn serr, LoopEvent.filePart fn 3 serr ∈ [LoopEvent.filePart "a.txt" 3 none] ∧ fn ≠ ""
       ∧ "2025-01-02_15-04-05.000/a.txt"
           = filepathJoin "2025-01-02_15-04-05.000" (sanitizeFilename fn))
  ∧ pathWithin "/var/uploads"
      (filepathJoin "/var/uploads" "2025-01-02_15-04-05.000/a.txt") := by
  have h := save_paths_confined
    { method := "POST", ctParse := some ("multipart/form-data", [("boundary", "X")]),
      captcha := some true, subfolder := "2025-01-02_15-04-05.000",
      events := [LoopEvent.filePart "a.txt" 3 none] }
    "2025-01-02_15-04-05.000/a.txt" 3 (by decide) (by decide) (by decide) (by decide)
    (by decide)
  exact ⟨h.1, h.2 "/var/uploads" (by decide)⟩

/-- C8 fails in its prefix part for a part whose declared filename is
`".."`: `filepath.Join` collapses `{sid}/".."` to `"."`, which neither has
the session identifier as a prefix nor equals `{sid}/{sanitized}`. -/
theorem session_prefix_cex :
    Event.saveCall "." 7 ∈ (uploadHandler
      { method := "POST", ctParse := some ("multipart/form-data", [("boundary", "Y")]),
        captcha := some true, subfolder := "2025-02-02_11-22-33.444",
        events := [LoopEvent.filePart ".." 7 (some ⟨false, "is a directory"⟩),
          LoopEvent.eofPart] }).2
  ∧ goHasPrefix "." "2025-02-02_11-22-33.444" = false
  ∧ "." ≠ "2025-02-02_11-22-33.444" ++ "/" ++ sanitizeFilename ".." := by
  decide

/-- C8 amended: the session identifier (`subfolder`) is fixed once per
request, every saved file's name is
`filepath.Join(sessionIdentifier, sanitizeFilename(filename))` with that
one identifier, and the part's byte stream handle is handed to `SaveFile`
unchanged (no intermediate buffering is modelled or performed).  Whenever
the sanitized filename is not empty, `"."` or `".."`, that name is the
literal `{sessionIdentifier}/{sanitizedFilename}` and carries the
identifier as a prefix. -/
theorem session_prefix_spec (r : UploadRequest) (name : String) (str : Nat)
    (hs1 : '/' ∉ r.subfolder.data) (hs2 : r.subfolder.data ≠ [])
    (hs3 : r.subfolder.data ≠ ['.']) (hs4 : r.subfolder.data ≠ dotdot)
    (hmem : Event.saveCall name str ∈ (uploadHandler r).2) :
    ∃ fn serr, LoopEvent.filePart fn str serr ∈ r.events ∧ fn ≠ ""
      ∧ name = filepathJoin r.subfolder (sanitizeFilename fn)
      ∧ ((sanitizeFilename fn).data ≠ [] → (sanitizeFilename fn).data ≠ ['.'] →
          (sanitizeFilename fn).data ≠ dotdot →
          name = r.subfolder ++ "/" ++ sanitizeFilename fn
            ∧ goHasPrefix name (r.subfolder ++ "/") = true) := by
  obtain ⟨fn, serr, hev, hne, hname⟩ := saveCall_handler r name str hmem
  refine ⟨fn, serr, hev, hne, hname, fun hc1 hc2 hc3 => ?_⟩
  have hcomp := filepathJoin_component r.subfolder (sanitizeFilename fn) hs1 hs2 hs3 hs4
    (sanitize_no_slash fn)
  have hdata := hcomp.2.2 hc1 hc2 hc3
  have hnd : name.data = r.subfolder.data ++ '/' :: (sanitizeFilename fn).data := by
    rw [hname, hdata]
  have happ : (r.subfolder ++ "/" ++ sanitizeFilename fn).data
      = r.subfolder.data ++ '/' :: (sanitizeFilename fn).data := by
    rw [stringData_append, stringData_append]
    simp
  constructor
  · apply stringData_ext
    rw [hnd, happ]
  · show isPrefixOfCh (r.subfolder ++ "/").data name.data = true
    have hpre : (r.subfolder ++ "/").data = r.subfolder.data ++ ['/'] := by
      rw [stringData_append]
    rw [hpre, hnd,
      show r.subfolder.data ++ '/' :: (sanitizeFilename fn).data
        = (r.subfolder.data ++ ['/']) ++ (sanitizeFilename fn).data by simp]
    exact isPrefixOfCh_append _ _

/-- Concrete instance of `session_prefix_spec`: the file `report.pdf`
saved in session `2025-04-04_09-08-07.006` is stored under
`2025-04-04_09-08-07.006/report.pdf`, with the identifier as prefix and
the part's stream handle passed through. -/
theorem session_prefix_spec_witness :
    ∃ fn serr, LoopEvent.filePart fn 4 serr ∈ [LoopEvent.filePart "report.pdf" 4 none]
      ∧ fn ≠ ""
      ∧ "2025-04-04_09-08-07.006/report.pdf"
          = filepathJoin "2025-04-04_09-08-07.006" (sanitizeFilename fn)
      ∧ ((sanitizeFilename fn).data ≠ [] → (sanitizeFilename fn).data ≠ ['.'] →
          (sanitizeFilename fn).data ≠ dotdot →
          "2025-04-04_09-08-07.006/report.pdf"
              = "2025-04-04_09-08-07.006" ++ "/" ++ sanitizeFilename fn
            ∧ goHasPrefix "2025-04-04_09-08-07.006/report.pdf"
                ("2025-04-04_09-08-07.006" ++ "/") = true) :=
  session_prefix_spec
    { method := "POST", ctParse := some ("multipart/form-data", [("boundary", "Q")]),
      captcha := some true, subfolder := "2025-04-04_09-08-07.006",
      events := [LoopEvent.filePart "report.pdf" 4 none] }
    "2025-04-04_09-08-07.006/report.pdf" 4 (by decide) (by decide) (by decide) (by decide)
    (by decide)

/-- C9 is right and the code is wrong: the spec requires the caller to
treat an all-separator filename (which sanitizes to the empty string) as
invalid, but `uploadHandler` performs no such check.  For the part named
`"///"` below, `sanitizeFilename` yields `""`, `filepath.Join` collapses
`{sid}/""` to the bare session identifier, `SaveFile` is invoked with that
degenerate name, and the handler reports `201 Uploaded 1 file(s)`. -/
theorem degenerate_name_saved :
    sanitizeFilename "///" = ""
  ∧ uploadHandler
      { method := "POST", ctParse := some ("multipart/form-data", [("boundary", "W")]),
        captcha := some true, subfolder := "2025-03-03_10-20-30.456",
        events := [LoopEvent.filePart "///" 5 none, LoopEvent.eofPart] }
      = (⟨201, "Uploaded 1 file(s)"⟩,
         [Event.captchaCall, Event.nextPartCall,
          Event.saveCall "2025-03-03_10-20-30.456" 5, Event.nextPartCall]) := by
  decide
